import Mathlib

/-!
Shallow embedding of the tsf formatting engine (tsf.hpp) and proofs about it.

The embedding follows the source file function by function:

* C strings are modelled as `List Char` holding the characters strictly before
  the null terminator; reading an index past the end yields the terminator
  (`cstrGet`), exactly as reading a C string does.
* `ssize_t` / `int` return values are modelled as `Int`; sizes and counts as `Nat`.
* The platform primitive `vsnprintf` (reached through `fmt_snprintf`) is not part
  of the repository; every definition that would call it takes an abstract
  `Prim` argument instead.  All theorems below either hold for every such
  primitive or exercise only the fast paths that never reach it.
* The build configuration in the repository targets linux-clang, so the
  non-Windows branch of the source is embedded: the 64-bit length modifier is
  the two characters l l, the wide-string modifier is the single character l
  with type letter s.
-/

namespace tsf

/-- The null character; modelling both the C string terminator and the value of
uninitialized bytes that the scanner may leave behind. -/
def nulChar : Char := Char.ofNat 0

/-- Read character `i` of a C string whose pre-terminator content is `s`:
past the end the terminator (and anything after it) reads as NUL. -/
def cstrGet (s : List Char) (i : Nat) : Char := s.getD i nulChar

/-- `static const size_t argbuf_arraysize = 16;` -/
def argbuf_arraysize : Nat := 16

/-- `static const char* i64Prefix = "ll";` (non-Windows branch). -/
def i64Prefix : List Char := ['l', 'l']

/-- `static const char* wcharPrefix = "l";` (non-Windows branch). -/
def wcharPrefix : List Char := ['l']

/-- `static const char wcharType = 's';` (non-Windows branch). -/
def wcharType : Char := 's'

/-- `const ssize_t MaxOutputSize = 1 * 1024 * 1024;` from `fmt_core`. -/
def MaxOutputSize : Nat := 1 * 1024 * 1024

/-- The argument cell `tsf::fmtarg`: a tagged union.  Payloads: pointers are an
abstract address, strings are the borrowed character data before the
terminator, integers are their mathematical value (32/64-bit signed values in
their two's-complement range, unsigned as naturals below 2^32 / 2^64).  The
double payload is irrelevant to every claim (doubles always go to the abstract
platform primitive), so it is not carried. -/
inductive fmtarg where
  | TNull : fmtarg
  | TPtr (v : Nat) : fmtarg
  | TCStr (s : List Char) : fmtarg
  | TWStr (s : List Char) : fmtarg
  | TI32 (v : Int) : fmtarg
  | TU32 (v : Nat) : fmtarg
  | TI64 (v : Int) : fmtarg
  | TU64 (v : Nat) : fmtarg
  | TDbl : fmtarg
deriving DecidableEq, Repr

instance : Inhabited fmtarg := ⟨fmtarg.TNull⟩

/-- The abstract platform formatting primitive standing for
`fmt_snprintf(destination, count, format_str, arg)` after
`fmt_translate_snprintf_return_value`: given the single-specifier format
string, the destination size and the argument, it returns the translated
return value together with the bytes it stored in the destination. -/
abbrev Prim := List Char → Nat → fmtarg → Int × List Char

/-- `tsf::context`: the two optional escape hooks.  A hook maps the
destination size and the argument cell to the pair (return value, bytes
written), mirroring `WriteSpecialFunc`. -/
structure context where
  Escape_Q : Option (Nat → fmtarg → Int × List Char) := none
  Escape_q : Option (Nat → fmtarg → Int × List Char) := none

/-- The default-constructed context used by `tsf::fmt`. -/
def noHooks : context := {}

/-- The `int32_t → uint32_t` conversion performed when `format_int32` formats
its argument through the unsigned instantiations of `format_integer`. -/
def u32_of_i32 (x : Int) : Int := Int.emod x 4294967296

/-- The `uint32_t → int32_t` two's-complement conversion performed when the
`TU32` payload is passed to `format_int32`'s `int32_t` parameter. -/
def i32_of_u32 (v : Nat) : Int := if v < 2 ^ 31 then (v : Int) else (v : Int) - 2 ^ 32

/-- The `int64_t → uint64_t` conversion inside `format_int64`. -/
def u64_of_i64 (x : Int) : Int := Int.emod x 18446744073709551616

/-- The `uint64_t → int64_t` two's-complement conversion performed when the
`TU64` payload is passed to `format_int64`'s `int64_t` parameter. -/
def i64_of_u64 (v : Nat) : Int := if v < 2 ^ 63 then (v : Int) else (v : Int) - 2 ^ 64

/-- `tsf::StackBuffer`.  `data` is the sequence of the `Pos` bytes appended so
far (so `Pos = data.length`), `cap` is `Capacity`, `own` is `OwnBuffer`. -/
structure StackBuffer where
  data : List Char
  cap : Nat
  own : Bool
deriving DecidableEq, Repr

/-- The `StackBuffer(staticbuf, staticbuf_size)` constructor. -/
def mkStackBuffer (staticbuf_size : Nat) : StackBuffer :=
  { data := [], cap := staticbuf_size, own := false }

/-- `StackBuffer::Pos`. -/
def StackBuffer.Pos (b : StackBuffer) : Nat := b.data.length

/-- `StackBuffer::Reserve(bytes)`: when `Pos + bytes > Capacity`, grow the
capacity to `max (Capacity * 2) (Pos + bytes)`; the content is copied into the
new (now owned) allocation. -/
def StackBuffer.Reserve (b : StackBuffer) (bytes : Nat) : StackBuffer :=
  if b.cap < b.data.length + bytes then
    { b with cap := max (b.cap * 2) (b.data.length + bytes), own := true }
  else b

/-- `StackBuffer::AddUninitialized(bytes)`: reserve, then advance `Pos` over
`bytes` uninitialized bytes (modelled as NUL). -/
def StackBuffer.AddUninitialized (b : StackBuffer) (bytes : Nat) : StackBuffer :=
  let r := b.Reserve bytes
  { r with data := r.data ++ List.replicate bytes nulChar }

/-- `StackBuffer::Add(c)`: `AddUninitialized(1)` and store `c` there. -/
def StackBuffer.Add (b : StackBuffer) (c : Char) : StackBuffer :=
  let r := b.Reserve 1
  { r with data := r.data ++ [c] }

/-- `StackBuffer::MoveCurrentPos(bytes)`: `Pos += bytes`.  The argument is an
integer because `fmt_core` passes negative deltas (through the `size_t`
wrap-around, which cancels).  Moving forward advances over uninitialized
bytes, moving backward discards. -/
def StackBuffer.MoveCurrentPos (b : StackBuffer) (d : Int) : StackBuffer :=
  let n := ((b.data.length : Int) + d).toNat
  { b with data := b.data.take n ++ List.replicate (n - b.data.length) nulChar }

/-- Appending several characters through `Add` (the literal pass-through loop
`for (j = tokenstart; j <= i; j++) output.Add(fmt[j]);`). -/
def StackBuffer.addChars (b : StackBuffer) (cs : List Char) : StackBuffer :=
  cs.foldl StackBuffer.Add b

/-- One pass of the scanner's bulk literal-copy loop: starting from the
precomputed `stopAt = i + RemainingSpace()`, copy characters until a `%`, the
end of the input, or `stopAt`, writing `Buffer[Pos++]` without per-byte bounds
checks. -/
def StackBuffer.bulkCopy (b : StackBuffer) (run : List Char) : StackBuffer :=
  { b with data := b.data ++ (run.takeWhile (fun c => c ≠ '%')).take (b.cap - b.data.length) }

/-- The output-buffer invariant of the specification: the write cursor never
exceeds the capacity. -/
def StackBuffer.inv (b : StackBuffer) : Prop := b.data.length ≤ b.cap

/-- The digit lookup table of `format_integer` for `upcase = false`. -/
def lutLower : List Char :=
  "zyxwvutsrqponmlkjihgfedcba9876543210123456789abcdefghijklmnopqrstuvwxyz".toList

/-- The digit lookup table of `format_integer` for `upcase = true`. -/
def lutUpper : List Char :=
  "ZYXWVUTSRQPONMLKJIHGFEDCBA9876543210123456789ABCDEFGHIJKLMNOPQRSTUVWXYZ".toList

/-- `lut[idx]` as read by `format_integer` (the index is `35 + r` for a
remainder `r` strictly between `-base` and `base`, always in range). -/
def lutChar (upcase : Bool) (idx : Int) : Char :=
  (if upcase then lutUpper else lutLower).getD idx.toNat ' '

/-- The digit-emitting do-while loop of `format_integer`: divisions are C++
divisions on the integer types, i.e. truncation toward zero (`Int.tdiv`); the
loop emits `lut[35 + (tmp_value - value * base)]` least-significant digit
first and ends when the quotient reaches zero.  Returns the emitted characters
in emission order together with the final `tmp_value` (whose sign decides the
minus sign).  The fuel argument only bounds the recursion depth structurally;
since the magnitude of the quotient strictly decreases at every iteration
(the source enforces `10 <= base <= 36` with a static_assert), `fi_loop`
below supplies fuel that provably never runs out. -/
def fi_go (base : Nat) (upcase : Bool) : Nat → Int → List Char × Int
  | 0, value => ([], value)
  | fuel + 1, value =>
    let v2 := value.tdiv base
    let d := lutChar upcase (35 + (value - v2 * (base : Int)))
    if v2 = 0 then ([d], value)
    else
      let p := fi_go base upcase fuel v2
      (d :: p.1, p.2)

/-- The digit loop of `format_integer`, with sufficient fuel (one iteration
runs the loop at least once even for `value = 0`; afterwards the magnitude
strictly decreases, so `value.natAbs + 1` iterations always reach the
quotient-zero exit). -/
def fi_loop (base : Nat) (upcase : Bool) (value : Int) : List Char × Int :=
  fi_go base upcase (value.natAbs + 1) value

/-- `format_integer<TInt, tbase, upcase>(destination, value)`: run the digit
loop, append a minus sign when the final `tmp_value` is negative, and reverse
the scratch buffer into the destination.  Returns the byte count `n` together
with the destination bytes. -/
def format_integer (base : Nat) (upcase : Bool) (value : Int) : Int × List Char :=
  let p := fi_loop base upcase value
  let buf := if p.2 < 0 then p.1 ++ ['-'] else p.1
  ((buf.length : Int), buf.reverse)

/-- The copy loop of `format_string`'s plain-string fast path: for
`i < count`, stop with return value `i` when `s[i]` is the terminator,
otherwise copy `destination[i] = s[i]`; fall out with `-1` when the budget is
exhausted.  The second component is the bytes stored in the destination. -/
def format_string_loop : Nat → List Char → List Char → Int × List Char
  | 0, _, written => (-1, written)
  | _ + 1, [], written => ((written.length : Int), written)
  | count + 1, ch :: rest, written => format_string_loop count rest (written ++ [ch])

/-- `format_string(destination, count, format_str, s)`: the plain-string fast
path when the reconstructed specifier starts with the two characters % s,
otherwise the platform primitive. -/
def format_string (prim : Prim) (count : Nat) (format_str : List Char) (s : List Char) :
    Int × List Char :=
  if cstrGet format_str 0 = '%' ∧ cstrGet format_str 1 = 's' then
    format_string_loop count s []
  else prim format_str count (fmtarg.TCStr s)

/-- `format_int32(destination, count, format_str, v)`: dispatch on
`format_str[1]` with the conservative budget thresholds (11 bytes for decimal,
8 for hex); anything else falls back to the platform primitive. -/
def format_int32 (prim : Prim) (count : Nat) (format_str : List Char) (v : Int) :
    Int × List Char :=
  match cstrGet format_str 1 with
  | 'd' => if 11 ≤ count then format_integer 10 false v else prim format_str count (fmtarg.TI32 v)
  | 'i' => if 11 ≤ count then format_integer 10 false v else prim format_str count (fmtarg.TI32 v)
  | 'u' =>
    if 11 ≤ count then format_integer 10 false (u32_of_i32 v)
    else prim format_str count (fmtarg.TI32 v)
  | 'x' =>
    if 8 ≤ count then format_integer 16 false (u32_of_i32 v)
    else prim format_str count (fmtarg.TI32 v)
  | 'X' =>
    if 8 ≤ count then format_integer 16 true (u32_of_i32 v)
    else prim format_str count (fmtarg.TI32 v)
  | _ => prim format_str count (fmtarg.TI32 v)

/-- `format_int64(destination, count, format_str, v)` (non-Windows branch):
`isPlain` checks `format_str[1]` and `format_str[2]` against the two
characters of `i64Prefix`, then dispatches on `format_str[4]` with thresholds
20/16; everything else falls back to the platform primitive. -/
def format_int64 (prim : Prim) (count : Nat) (format_str : List Char) (v : Int) :
    Int × List Char :=
  if cstrGet format_str 1 = 'l' ∧ cstrGet format_str 2 = 'l' then
    match cstrGet format_str 4 with
    | 'd' =>
      if 20 ≤ count then format_integer 10 false v else prim format_str count (fmtarg.TI64 v)
    | 'i' =>
      if 20 ≤ count then format_integer 10 false v else prim format_str count (fmtarg.TI64 v)
    | 'u' =>
      if 20 ≤ count then format_integer 10 false (u64_of_i64 v)
      else prim format_str count (fmtarg.TI64 v)
    | 'x' =>
      if 16 ≤ count then format_integer 16 false (u64_of_i64 v)
      else prim format_str count (fmtarg.TI64 v)
    | 'X' =>
      if 16 ≤ count then format_integer 16 true (u64_of_i64 v)
      else prim format_str count (fmtarg.TI64 v)
    | _ => prim format_str count (fmtarg.TI64 v)
  else prim format_str count (fmtarg.TI64 v)

/-- The `switch (argbuf[pos - 1])` step of `fmt_settype` taken when a width
string is supplied: a trailing length-modifier character l, h or w is dropped
before the width is appended. -/
def fmt_settype_strip (argbuf : List Char) : List Char :=
  match cstrGet argbuf (argbuf.length - 1) with
  | 'l' => argbuf.dropLast
  | 'h' => argbuf.dropLast
  | 'w' => argbuf.dropLast
  | _ => argbuf

/-- The C-string content of `argbuf` after `fmt_settype(argbuf, pos, width,
type)` with `pos = argbuf.length`: with a width, strip one trailing l/h/w,
then append the width characters and the type letter (the terminating NUL is
not part of the content); with `width == nullptr`, append only the type
letter. -/
def fmt_settype_result (argbuf : List Char) (width : Option (List Char)) (ty : Char) :
    List Char :=
  match width with
  | some w => fmt_settype_strip argbuf ++ w ++ [ty]
  | none => argbuf ++ [ty]

/-- Every store `argbuf[k] = c` performed by `fmt_settype(argbuf, pos, width,
type)` with `pos = argbuf.length`, as the list of (index, character) pairs:
the width characters, the type letter and the terminating NUL. -/
def fmt_settype_writes (argbuf : List Char) (width : Option (List Char)) (ty : Char) :
    List (Nat × Char) :=
  match width with
  | some w =>
    let pos := (fmt_settype_strip argbuf).length
    (w.enum.map (fun kc => (pos + kc.1, kc.2))) ++
      [(pos + w.length, ty), (pos + w.length + 1, nulChar)]
  | none => [(argbuf.length, ty), (argbuf.length + 1, nulChar)]

/-- `0 <= value < base` tests used by `fmt_output_with_snprintf`:
`tokenint` is the switch marking the integer-class letters. -/
def tokenint (c : Char) : Prop := c ∈ ['d', 'i', 'o', 'u', 'x', 'X']

/-- The switch marking the real-number-class letters. -/
def tokenreal (c : Char) : Prop := c ∈ ['e', 'E', 'f', 'g', 'G', 'a', 'A']

instance (c : Char) : Decidable (tokenint c) := by unfold tokenint; infer_instance

instance (c : Char) : Decidable (tokenreal c) := by unfold tokenreal; infer_instance

/-- The `SETTYPE1` / `SETTYPE2` arguments that `fmt_output_with_snprintf`
passes to `fmt_settype` for each argument tag: the (width, type) pair, `none`
for the `TNull` case which performs no settype and returns 0.  `none` as a
width is `SETTYPE1` (a null width pointer: no stripping, no width characters);
`some []` is `SETTYPE2` with the empty width string. -/
def fows_settype_args (fmt_type : Char) (arg : fmtarg) : Option (Option (List Char) × Char) :=
  match arg with
  | .TNull => none
  | .TPtr _ => some (none, 'p')
  | .TCStr _ => some (some [], 's')
  | .TWStr _ => some (some wcharPrefix, wcharType)
  | .TI32 _ =>
    some (some [], if fmt_type = 'c' then 'c' else if tokenint fmt_type then fmt_type else 'd')
  | .TU32 _ => some (some [], if tokenint fmt_type then fmt_type else 'u')
  | .TI64 _ => some (some i64Prefix, if tokenint fmt_type then fmt_type else 'd')
  | .TU64 _ => some (some i64Prefix, if tokenint fmt_type then fmt_type else 'u')
  | .TDbl => some (none, if tokenreal fmt_type then fmt_type else 'g')

/-- `fmt_output_with_snprintf(outbuf, fmt_type, argbuf, argbufsize,
outputSize, arg)`: rewrite the specifier through `fmt_settype` according to
the argument's tag, then dispatch to `format_string` / `format_int32` /
`format_int64` or the platform primitive.  Returns the reported byte count and
the bytes stored in `outbuf`. -/
def fmt_output_with_snprintf (prim : Prim) (fmt_type : Char) (argbuf : List Char)
    (outputSize : Nat) (arg : fmtarg) : Int × List Char :=
  match fows_settype_args fmt_type arg with
  | none => (0, [])
  | some wty =>
    let fs := fmt_settype_result argbuf wty.1 wty.2
    match arg with
    | .TNull => (0, [])
    | .TCStr s => format_string prim outputSize fs s
    | .TI32 v => format_int32 prim outputSize fs v
    | .TU32 v => format_int32 prim outputSize fs (i32_of_u32 v)
    | .TI64 v => format_int64 prim outputSize fs v
    | .TU64 v => format_int64 prim outputSize fs (i64_of_u64 v)
    | other => prim fs outputSize other

/-- `initial_sprintf_guessed_size = staticbuf_size >> 2` from `fmt_core`. -/
def initial_sprintf_guessed_size (staticbuf_size : Nat) : Nat := staticbuf_size >>> 2

/-- The grow-and-retry loop of `fmt_core` for one accepted specifier
(`while (true) { ... }`): reserve `outputSize` bytes (`AddUninitialized`),
run the escape hook or `fmt_output_with_snprintf`; on `0 <= written <
outputSize` keep exactly `written` bytes (`MoveCurrentPos(written -
outputSize)`) and stop; otherwise, once `outputSize >= MaxOutputSize`, give up
keeping the whole uninitialized reservation; otherwise discard
(`MoveCurrentPos(-outputSize)`), double `outputSize` and retry.  The source
loop has no fuel; the fuel only bounds the recursion depth in Lean and is
chosen so that it cannot run out when `outputSize` starts positive (doubling
from 1 exceeds `MaxOutputSize` after 21 steps; `fmt_core` passes 64).  The
case of a zero initial size, where the source loop never exits, is analysed
separately through `growLoopTerminates`. -/
def dispatchLoop (prim : Prim) (ctx : context) (is_q is_Q : Bool) (fmt_type : Char)
    (argbuf : List Char) (arg : fmtarg) : Nat → Nat → StackBuffer → StackBuffer
  | 0, _, buf => buf
  | fuel + 1, outputSize, buf =>
    let b1 := buf.Reserve outputSize
    let wr :=
      if is_q then (ctx.Escape_q.getD (fun _ _ => (0, []))) outputSize arg
      else if is_Q then (ctx.Escape_Q.getD (fun _ _ => (0, []))) outputSize arg
      else fmt_output_with_snprintf prim fmt_type argbuf outputSize arg
    if 0 ≤ wr.1 ∧ wr.1 < (outputSize : Int) then
      { b1 with data := b1.data ++ wr.2.take wr.1.toNat }
    else if MaxOutputSize ≤ outputSize then
      { b1 with data := b1.data ++ wr.2.take outputSize ++
          List.replicate (outputSize - min wr.2.length outputSize) nulChar }
    else dispatchLoop prim ctx is_q is_Q fmt_type argbuf arg fuel (outputSize * 2) b1

/-- The terminator letters recognized by the scanner's specifier-state switch
(a literal `%` is handled separately). -/
def isTerminator (c : Char) : Prop :=
  c ∈ ['a', 'A', 'c', 'C', 'd', 'i', 'e', 'E', 'f', 'g', 'G', 'H', 'o', 's', 'S',
       'u', 'x', 'X', 'p', 'n', 'v', 'q', 'Q']

instance (c : Char) : Decidable (isTerminator c) := by unfold isTerminator; infer_instance

/-- The scanner loop of `fmt_core` (`for (ssize_t i = 0; fmt[i]; i++)`).
The `Option (List Char)` argument is the specifier state: `none` while
scanning a literal run (`tokenstart == -1`), `some tok` with `tok` the
characters `fmt[tokenstart..i-1]` otherwise (so `tok.length = i -
tokenstart`).  The literal branch is embedded character by character: the
source's bulk copy with a precomputed `stopAt` followed by `Reserve(1)` when
space runs out performs exactly one `Reserve(1)`-when-full per copied
character, which is `StackBuffer.Add`.  Returns the final buffer and the
final `iarg` (the number of argument cells consumed). -/
def scan (prim : Prim) (ctx : context) (args : List fmtarg) (initGuess : Nat) :
    List Char → Option (List Char) → Nat → StackBuffer → StackBuffer × Nat
  | [], _, iarg, buf => (buf, iarg)
  | c :: rest, none, iarg, buf =>
    if c = '%' then scan prim ctx args initGuess rest (some ['%']) iarg buf
    else scan prim ctx args initGuess rest none iarg (buf.Add c)
  | c :: rest, some tok, iarg, buf =>
    if isTerminator c then
      if args.length ≤ iarg ∨ argbuf_arraysize - 1 ≤ tok.length ∨ c = 'n' ∨
          (c = 'q' ∧ ctx.Escape_q.isNone) ∨ (c = 'Q' ∧ ctx.Escape_Q.isNone) then
        scan prim ctx args initGuess rest none iarg (buf.addChars (tok ++ [c]))
      else
        scan prim ctx args initGuess rest none (iarg + 1)
          (dispatchLoop prim ctx (c == 'q') (c == 'Q') c (tok.filter (fun x => x ≠ '*'))
            (args.getD iarg fmtarg.TNull) 64 initGuess buf)
    else if c = '%' then
      scan prim ctx args initGuess rest none iarg (buf.Add '%')
    else
      scan prim ctx args initGuess rest (some (tok ++ [c])) iarg buf

/-- The result of the scanner path of `fmt_core`: the returned string content
(excluding the forced NUL), its length (`Pos - 1`), whether the returned
pointer is the caller's buffer (`res.Str == staticbuf`, i.e. the buffer was
never promoted to an owned heap allocation), and how many argument cells were
consumed. -/
structure ScanResult where
  str : List Char
  len : Nat
  usedStatic : Bool
  argsConsumed : Nat
deriving DecidableEq, Repr

/-- `fmt_core(context, fmt, nargs, args, staticbuf, staticbuf_size)` for
`nargs != 0`: run the scanner, then `output.Add(0)` and return
`{output.Buffer, output.Pos - 1}`.  (The `nargs == 0` fast path, source lines
501-513, is `fmt_core_zeroargs` below.) -/
def fmt_core (prim : Prim) (ctx : context) (fmt : List Char) (args : List fmtarg)
    (staticbuf_size : Nat) : ScanResult :=
  let r := scan prim ctx args (initial_sprintf_guessed_size staticbuf_size) fmt none 0
    (mkStackBuffer staticbuf_size)
  let b := r.1.Add nulChar
  { str := b.data.dropLast, len := b.data.length - 1, usedStatic := !b.own,
    argsConsumed := r.2 }

/-- The result of the `nargs == 0` fast path: whether the returned pointer is
`staticbuf`, the number of bytes the `memcpy` placed into the caller's static
buffer (0 when a heap allocation was returned), and the returned content. -/
structure ZeroArgResult where
  usedStatic : Bool
  staticBytes : Nat
  str : List Char
  len : Nat
deriving DecidableEq, Repr

/-- The `nargs == 0` fast path of `fmt_core` (source lines 501-513): with
`len = strlen(fmt)`, when `staticbuf_size != 0 && len <= staticbuf_size + 1`
it copies `len + 1` bytes into `staticbuf` and returns `staticbuf`; otherwise
it copies into a fresh `new char[len + 1]` allocation. -/
def fmt_core_zeroargs (fmt : List Char) (staticbuf_size : Nat) : ZeroArgResult :=
  let len := fmt.length
  if staticbuf_size ≠ 0 ∧ len ≤ staticbuf_size + 1 then
    { usedStatic := true, staticBytes := len + 1, str := fmt, len := len }
  else
    { usedStatic := false, staticBytes := 0, str := fmt, len := len }

/-- A fixed platform primitive used to evaluate concrete runs; it always
reports "not enough space".  Every concrete theorem below only exercises code
paths that never consult the primitive. -/
def nullPrim : Prim := fun _ _ _ => ((-1 : Int), ([] : List Char))

/-- The destination size used by the grow-and-retry loop at attempt `k`:
the initial guess doubled `k` times. -/
def growSize (initial : Nat) (k : Nat) : Nat := initial * 2 ^ k

/-- The exit condition of the grow-and-retry loop at one attempt: the
primitive reported `0 <= written < outputSize`, or the `MaxOutputSize`
ceiling has been reached (the give-up branch). -/
def growExit (written : Int) (outputSize : Nat) : Prop :=
  (0 ≤ written ∧ written < (outputSize : Int)) ∨ MaxOutputSize ≤ outputSize

/-- Termination of the grow-and-retry loop, with the formatting primitive
abstracted as the function `w` from attempted destination size to reported
byte count: some attempt satisfies the exit condition. -/
def growLoopTerminates (w : Nat → Int) (initial : Nat) : Prop :=
  ∃ k, growExit (w (growSize initial k)) (growSize initial k)

/-- Decimal digit characters of `n`, most significant first, as structural
recursion on a fuel bound (the recursion divides by 10, so `n + 1` units of
fuel always suffice). -/
def natDecDigitsGo : Nat → Nat → List Char
  | 0, _ => []
  | fuel + 1, n =>
    if n < 10 then [Nat.digitChar n]
    else natDecDigitsGo fuel (n / 10) ++ [Nat.digitChar (n % 10)]

/-- Decimal digit characters of `n`, most significant first — the
specification's "the digits of |v|" (reference definition, written from the
spec's words, to be compared with what `format_integer` produces). -/
def natDecDigits (n : Nat) : List Char := natDecDigitsGo (n + 1) n

/-- Decimal digit characters of `n`, least significant first (fueled): the
order in which `format_integer`'s scratch buffer is filled. -/
def natDigitsLSDGo : Nat → Nat → List Char
  | 0, _ => []
  | fuel + 1, n =>
    if n < 10 then [Nat.digitChar n]
    else Nat.digitChar (n % 10) :: natDigitsLSDGo fuel (n / 10)

/-- Decimal digit characters of `n`, least significant first. -/
def natDigitsLSD (n : Nat) : List Char := natDigitsLSDGo (n + 1) n

/-- The specifier-rewriting rules exactly as section 4.4 of the specification
states them, per argument tag (reference definition, written from the spec's
words, to be compared with the settype arguments of
`fmt_output_with_snprintf`).  The 64-bit signed cell follows the spec's
"same logic as 32-bit, plus force a 64-bit length modifier", which imports
the 32-bit signed rule's first sub-rule: letter `c` forces `c` (character
output).  The 64-bit unsigned cell imports the 32-bit unsigned logic, which
has no `c` sub-rule.  Section 4.4 gives no rule for the `TNull` sentinel, for
which the code performs no rewrite and emits nothing. -/
def specRewrite_spec (letter : Char) (arg : fmtarg) : Option (Option (List Char) × Char) :=
  match arg with
  | .TNull => none
  | .TPtr _ => some (none, 'p')
  | .TCStr _ => some (some [], 's')
  | .TWStr _ => some (some wcharPrefix, wcharType)
  | .TI32 _ =>
    some (some [],
      if letter = 'c' then 'c'
      else if letter ∈ ['d', 'i', 'o', 'u', 'x', 'X'] then letter
      else 'd')
  | .TU32 _ => some (some [], if letter ∈ ['d', 'i', 'o', 'u', 'x', 'X'] then letter else 'u')
  | .TI64 _ =>
    some (some i64Prefix,
      if letter = 'c' then 'c'
      else if letter ∈ ['d', 'i', 'o', 'u', 'x', 'X'] then letter
      else 'd')
  | .TU64 _ => some (some i64Prefix, if letter ∈ ['d', 'i', 'o', 'u', 'x', 'X'] then letter else 'u')
  | .TDbl => some (none, if letter ∈ ['e', 'E', 'f', 'g', 'G', 'a', 'A'] then letter else 'g')

/-! Helper lemmas. -/

lemma reserve_data (b : StackBuffer) (n : Nat) : (b.Reserve n).data = b.data := by
  unfold StackBuffer.Reserve
  split <;> rfl

lemma reserve_post (b : StackBuffer) (n : Nat) : b.data.length + n ≤ (b.Reserve n).cap := by
  unfold StackBuffer.Reserve
  split
  · exact le_max_right _ _
  · omega

lemma addUninitialized_length (b : StackBuffer) (n : Nat) :
    (b.AddUninitialized n).data.length = b.data.length + n := by
  unfold StackBuffer.AddUninitialized
  simp [reserve_data]

lemma addUninitialized_cap (b : StackBuffer) (n : Nat) :
    (b.AddUninitialized n).cap = (b.Reserve n).cap := rfl

lemma moveCurrentPos_length (b : StackBuffer) (d : Int) :
    (b.MoveCurrentPos d).data.length = ((b.data.length : Int) + d).toNat := by
  unfold StackBuffer.MoveCurrentPos
  simp
  omega

lemma moveCurrentPos_cap (b : StackBuffer) (d : Int) : (b.MoveCurrentPos d).cap = b.cap := rfl

/-- In the specifier state, characters that are neither terminator letters nor
`%` are only accumulated into the pending token: the buffer and the argument
cursor are untouched. -/
lemma scan_accum (prim : Prim) (ctx : context) (args : List fmtarg) (initGuess : Nat)
    (body rest tok : List Char) (iarg : Nat) (buf : StackBuffer)
    (h : ∀ c ∈ body, ¬ isTerminator c ∧ c ≠ '%') :
    scan prim ctx args initGuess (body ++ rest) (some tok) iarg buf =
      scan prim ctx args initGuess rest (some (tok ++ body)) iarg buf := by
  induction body generalizing tok with
  | nil => simp
  | cons c cs ih =>
    have hc := h c (by simp)
    have hcs : ∀ x ∈ cs, ¬ isTerminator x ∧ x ≠ '%' := fun x hx => h x (by simp [hx])
    simp only [List.cons_append]
    rw [scan, if_neg hc.1, if_neg hc.2, ih (tok ++ [c]) hcs]
    simp

/-! Claim theorems. -/

/-- C1: the claim asserts that every write `fmt_settype` performs into the
16-byte `argbuf` stays in bounds for every accepted specifier.  The code
violates this: the specifier `%0000000000001d` has token length 14, so it is
accepted (`spec_too_long` requires length >= 15), yet with an `int64` argument
cell the dispatch appends the two-character `ll` modifier plus the type letter
and the NUL, producing stores at `argbuf[16]` and `argbuf[17]` — past the end
of `char argbuf[argbuf_arraysize]`. -/
theorem C1_argbuf_overflow :
    ¬ (argbuf_arraysize - 1 ≤ ("%0000000000001".toList).length) ∧
    fows_settype_args 'd' (fmtarg.TI64 5) = some (some i64Prefix, 'd') ∧
    ((fmt_settype_writes (("%0000000000001".toList).filter (fun x => x ≠ '*'))
        (some i64Prefix) 'd').any (fun w => argbuf_arraysize ≤ w.1)) = true := by
  refine ⟨by decide, rfl, by decide⟩

/-- C2: the claim asserts that the zero-argument fast path copies into the
caller's buffer only when `len + 1 <= staticbuf_size`, writing at most
`staticbuf_size` bytes.  The code tests `len <= staticbuf_size + 1` instead:
with `staticbuf_size = 4` and the five-character format string `abcde` it
returns the static buffer after copying `len + 1 = 6` bytes into it. -/
theorem C2_zeroargs_overflow :
    (fmt_core_zeroargs ("abcde".toList) 4).usedStatic = true ∧
    (fmt_core_zeroargs ("abcde".toList) 4).staticBytes = 6 ∧
    4 < (fmt_core_zeroargs ("abcde".toList) 4).staticBytes := by
  refine ⟨rfl, rfl, by decide⟩

/-- C4 counterexample: the claim asserts that when the string does not fit,
the fast path writes nothing into the destination; in fact for `count = 2`
and `s = abc` it stores the two characters a, b before returning -1. -/
theorem C4_counterexample :
    (format_string nullPrim 2 ['%', 's'] ['a', 'b', 'c']).1 = -1 ∧
    (format_string nullPrim 2 ['%', 's'] ['a', 'b', 'c']).2 = ['a', 'b'] ∧
    (format_string nullPrim 2 ['%', 's'] ['a', 'b', 'c']).2 ≠ [] := by
  refine ⟨rfl, rfl, by decide⟩

lemma format_string_loop_spec (count : Nat) :
    ∀ (s written : List Char), count ≤ s.length →
      format_string_loop count s written = (-1, written ++ s.take count) := by
  induction count with
  | zero => intro s written _; simp [format_string_loop]
  | succ n ih =>
    intro s written hs
    match s with
    | [] => simp at hs
    | ch :: rest =>
      rw [format_string_loop, ih rest (written ++ [ch]) (by simpa using hs)]
      simp

/-- C4 (amended): when the source string including its terminator does not
fit in `count` bytes, the `%s` fast path returns -1 and writes no null
terminator, but it does first copy the first `count` bytes of `s` into the
destination; the -1 return value marks those bytes as not valid output. -/
theorem C4_insufficient_space (prim : Prim) (count : Nat) (s : List Char)
    (h : count ≤ s.length) :
    (format_string prim count ['%', 's'] s).1 = -1 ∧
    (format_string prim count ['%', 's'] s).2 = s.take count ∧
    (nulChar ∉ s → nulChar ∉ (format_string prim count ['%', 's'] s).2) := by
  have hfast : format_string prim count ['%', 's'] s = format_string_loop count s [] := by
    unfold format_string
    rw [if_pos (by decide)]
  rw [hfast, format_string_loop_spec count s [] h]
  refine ⟨rfl, by simp, ?_⟩
  intro hnul hmem
  exact hnul (List.mem_of_mem_take (by simpa using hmem))

/-- C4 witness. -/
theorem C4_insufficient_space_witness :
    2 ≤ (['a', 'b', 'c'] : List Char).length ∧
    (format_string nullPrim 2 ['%', 's'] ['a', 'b', 'c']).1 = -1 :=
  ⟨by decide, (C4_insufficient_space nullPrim 2 ['a', 'b', 'c'] (by decide)).1⟩

/-- C5: a specifier terminated by the letter n is never honored, in every
scanner state: whatever the pending specifier body `tok`, the remaining
input, the argument list, the argument cursor and the buffer contents, the
scanner appends the specifier's bytes (`tok` plus the n) to the output as
literal text and leaves the argument cursor unchanged — so the cell survives
for a later specifier.  Consequently formatting `%n%d` with the single
argument 5 emits `%n` literally and the subsequent `%d` still receives the 5
(one cell consumed in total), for every primitive and context. -/
theorem C5_pct_n_literal (prim : Prim) (ctx : context) (args : List fmtarg)
    (initGuess : Nat) (tok rest : List Char) (iarg : Nat) (buf : StackBuffer) :
    scan prim ctx args initGuess ('n' :: rest) (some tok) iarg buf =
      scan prim ctx args initGuess rest none iarg (buf.addChars (tok ++ ['n'])) ∧
    (fmt_core prim ctx ['%', 'n', '%', 'd'] [fmtarg.TI32 5] 256).str = ['%', 'n', '5'] ∧
    (fmt_core prim ctx ['%', 'n', '%', 'd'] [fmtarg.TI32 5] 256).argsConsumed = 1 := by
  refine ⟨?_, rfl, rfl⟩
  rw [scan, if_pos (show isTerminator 'n' by decide),
    if_pos (Or.inr (Or.inr (Or.inl rfl)))]

/-- C7 counterexample: the claim asserts that a `%` followed by an
unrecognized letter is copied through to the output as literal text; in fact
`%r` with an available argument produces empty output (the scanner keeps
accumulating the open specifier until the string ends, then drops it), and no
argument is consumed. -/
theorem C7_counterexample :
    (fmt_core nullPrim noHooks ['%', 'r'] [fmtarg.TI32 5] 256).str = [] ∧
    (fmt_core nullPrim noHooks ['%', 'r'] [fmtarg.TI32 5] 256).str ≠ ['%', 'r'] ∧
    (fmt_core nullPrim noHooks ['%', 'r'] [fmtarg.TI32 5] 256).argsConsumed = 0 := by
  refine ⟨rfl, by decide, rfl⟩

/-- C7 (amended): an unrecognized character after `%` does not terminate the
specifier and is not copied through by itself; the scanner absorbs any run of
such characters into the pending specifier, emitting nothing and consuming no
argument, and only a later recognized terminator letter (or `%`, or the end
of the string) decides the specifier's fate. -/
theorem C7_unrecognized_absorbed (prim : Prim) (ctx : context) (args : List fmtarg)
    (initGuess : Nat) (body rest : List Char) (iarg : Nat) (buf : StackBuffer)
    (h : ∀ c ∈ body, ¬ isTerminator c ∧ c ≠ '%') :
    scan prim ctx args initGuess ('%' :: (body ++ rest)) none iarg buf =
      scan prim ctx args initGuess rest (some ('%' :: body)) iarg buf := by
  rw [scan, if_pos rfl]
  exact scan_accum prim ctx args initGuess body rest ['%'] iarg buf h

/-- C7 witness. -/
theorem C7_unrecognized_absorbed_witness :
    (∀ c ∈ ['r'], ¬ isTerminator c ∧ c ≠ '%') ∧
    scan nullPrim noHooks [fmtarg.TI32 5] 64 ('%' :: (['r'] ++ [])) none 0 (mkStackBuffer 256) =
      scan nullPrim noHooks [fmtarg.TI32 5] 64 [] (some ('%' :: ['r'])) 0 (mkStackBuffer 256) :=
  ⟨by decide,
    C7_unrecognized_absorbed nullPrim noHooks [fmtarg.TI32 5] 64 ['r'] [] 0
      (mkStackBuffer 256) (by decide)⟩

/-- C10: when the format string ends while the scanner is still inside a
specifier (a trailing `%` possibly followed by characters that are neither
terminator letters nor `%`), the bytes from that `%` to the end are omitted
from the output entirely and no argument cell is consumed: scanning such a
suffix returns the buffer and the argument cursor unchanged. -/
theorem C10_open_specifier_dropped (prim : Prim) (ctx : context) (args : List fmtarg)
    (initGuess : Nat) (tail : List Char) (iarg : Nat) (buf : StackBuffer)
    (h : ∀ c ∈ tail, ¬ isTerminator c ∧ c ≠ '%') :
    scan prim ctx args initGuess ('%' :: tail) none iarg buf = (buf, iarg) := by
  rw [scan, if_pos rfl]
  have htail : tail = tail ++ [] := by simp
  rw [htail, scan_accum prim ctx args initGuess tail [] ['%'] iarg buf h]
  rw [scan]

/-- C10 witness. -/
theorem C10_open_specifier_dropped_witness :
    (∀ c ∈ ['5'], ¬ isTerminator c ∧ c ≠ '%') ∧
    scan nullPrim noHooks [fmtarg.TI32 7] 64 ('%' :: ['5']) none 0 (mkStackBuffer 256) =
      (mkStackBuffer 256, 0) :=
  ⟨by decide,
    C10_open_specifier_dropped nullPrim noHooks [fmtarg.TI32 7] 64 ['5'] 0
      (mkStackBuffer 256) (by decide)⟩

/-- C3 counterexample: the claim asserts that the grow-and-retry loop always
terminates.  When the caller-supplied buffer size is below 4 the initial
guess `staticbuf_size >> 2` is 0, every retry doubles 0 to 0, and neither exit
condition can ever hold (no primitive can report a count in the empty range
`[0, 0)`, and 0 never reaches the 1 MiB ceiling) — shown here with the real
`%s` fast encoder as the primitive. -/
theorem C3_counterexample :
    ¬ growLoopTerminates (fun sz => (format_string nullPrim sz ['%', 's'] ['x']).1)
        (initial_sprintf_guessed_size 0) := by
  rintro ⟨k, hk⟩
  have hz : growSize (initial_sprintf_guessed_size 0) k = 0 := by
    simp [growSize, initial_sprintf_guessed_size]
  rw [hz] at hk
  rcases hk with ⟨h1, _⟩ | h2
  · exact absurd h1 (by decide)
  · exact absurd h2 (by decide)

/-- C3 (amended): whenever the initial destination guess is positive (i.e.
the caller-supplied buffer holds at least 4 bytes), the grow-and-retry loop
terminates for every primitive: doubling reaches the `MaxOutputSize` ceiling,
whose branch accepts whatever was produced with no further retries. -/
theorem C3_terminates_of_pos_init (w : Nat → Int) (initial : Nat) (h : 1 ≤ initial) :
    growLoopTerminates w initial := by
  refine ⟨20, Or.inr ?_⟩
  have h1 : MaxOutputSize = 1 * 2 ^ 20 := by decide
  rw [h1]
  exact Nat.mul_le_mul_right _ h

/-- C3 witness. -/
theorem C3_terminates_of_pos_init_witness :
    1 ≤ initial_sprintf_guessed_size 256 ∧
    growLoopTerminates (fun _ => (-1 : Int)) (initial_sprintf_guessed_size 256) :=
  ⟨by decide, C3_terminates_of_pos_init (fun _ => (-1 : Int)) _ (by decide)⟩

/-- C6 counterexample: the claim asserts the dispatch follows the section 4.4
rewrite table for every letter and tag, but at the 64-bit signed cell with
letter c the code keeps the 32-bit `tokenint`-or-`d` choice (yielding the
decimal type letter d with the ll modifier), while section 4.4's "same logic
as 32-bit" imports the c-forces-c sub-rule (character output). -/
theorem C6_counterexample :
    fows_settype_args 'c' (fmtarg.TI64 0) = some (some i64Prefix, 'd') ∧
    specRewrite_spec 'c' (fmtarg.TI64 0) = some (some i64Prefix, 'c') ∧
    fows_settype_args 'c' (fmtarg.TI64 0) ≠ specRewrite_spec 'c' (fmtarg.TI64 0) := by
  refine ⟨rfl, rfl, by decide⟩

/-- C6 (amended): for every specifier letter and argument cell, the
(length-modifier, type-letter) pair that the dispatch hands to `fmt_settype`
equals the rewrite table of section 4.4 of the specification, except at the
one cell the counterexample exhibits: a 64-bit signed cell with letter c,
where the code forces d (decimal) instead of the c that section 4.4
prescribes.  In particular a `%d` specifier applied to a narrow-string cell
is rewritten to `%s` and handled by string formatting (the plain-string
encoder), and a full `%d`-with-string call returns the string unchanged
instead of failing. -/
theorem C6_rewrite_matches_spec (letter : Char) (arg : fmtarg) (prim : Prim) (n : Nat)
    (s : List Char) (ctx : context)
    (h : letter ≠ 'c' ∨ ∀ v : Int, arg ≠ fmtarg.TI64 v) :
    fows_settype_args letter arg = specRewrite_spec letter arg ∧
    fmt_output_with_snprintf prim 'd' ['%'] n (fmtarg.TCStr s) =
      format_string prim n ['%', 's'] s ∧
    (fmt_core prim ctx ['%', 'd'] [fmtarg.TCStr ['a', 'b', 'c']] 256).str = ['a', 'b', 'c'] := by
  refine ⟨?_, rfl, rfl⟩
  cases arg with
  | TNull => rfl
  | TPtr v => rfl
  | TCStr s2 => rfl
  | TWStr s2 => rfl
  | TI32 v => rfl
  | TU32 v => rfl
  | TI64 v =>
    rcases h with hne | hne
    · simp only [fows_settype_args, specRewrite_spec]
      rw [if_neg hne]
      rfl
    · exact absurd rfl (hne v)
  | TU64 v => rfl
  | TDbl => rfl

/-- C6 witness. -/
theorem C6_rewrite_matches_spec_witness :
    ((('d' : Char) ≠ 'c') ∨ ∀ v : Int, fmtarg.TCStr ['a'] ≠ fmtarg.TI64 v) ∧
    fows_settype_args 'd' (fmtarg.TCStr ['a']) = specRewrite_spec 'd' (fmtarg.TCStr ['a']) :=
  ⟨Or.inl (by decide),
    (C6_rewrite_matches_spec 'd' (fmtarg.TCStr ['a']) nullPrim 8 ['a'] noHooks
      (Or.inl (by decide))).1⟩

/-- C9: the output-buffer invariant `Pos <= Capacity` holds after
construction and is preserved by every operation the formatting call
performs: `Reserve` (which, when `Pos + n` would overflow, grows the capacity
to `max (2 * Capacity) (Pos + n)` and afterwards always guarantees
`Pos + n <= Capacity`), `Add`, `AddUninitialized`, the two
`MoveCurrentPos` usages of the retry loop (`written - outputSize` with
`written <= outputSize` after an `AddUninitialized(outputSize)`, and
`-outputSize`), and one pass of the scanner's bulk literal-copy loop. -/
theorem C9_invariant_preserved (size n : Nat) (c : Char) (b : StackBuffer) (w : Nat)
    (run : List Char) (hb : b.inv) (hw : w ≤ n) :
    (mkStackBuffer size).inv ∧
    (b.Reserve n).inv ∧
    (b.Reserve n).data.length + n ≤ (b.Reserve n).cap ∧
    (b.cap < b.data.length + n → (b.Reserve n).cap = max (b.cap * 2) (b.data.length + n)) ∧
    (b.Add c).inv ∧
    (b.AddUninitialized n).inv ∧
    ((b.AddUninitialized n).MoveCurrentPos ((w : Int) - (n : Int))).inv ∧
    ((b.AddUninitialized n).MoveCurrentPos (-(n : Int))).inv ∧
    (b.bulkCopy run).inv := by
  have hres := reserve_post b n
  have hresd := reserve_data b n
  have hres1 := reserve_post b 1
  have hres1d := reserve_data b 1
  have hau := addUninitialized_length b n
  have haucap : (b.AddUninitialized n).cap = (b.Reserve n).cap := rfl
  refine ⟨?_, ?_, ?_, ?_, ?_, ?_, ?_, ?_, ?_⟩
  · simp [mkStackBuffer, StackBuffer.inv]
  · unfold StackBuffer.inv
    rw [hresd]; omega
  · rw [hresd]; exact hres
  · intro hgrow
    unfold StackBuffer.Reserve
    rw [if_pos hgrow]
  · unfold StackBuffer.Add StackBuffer.inv
    simp only [List.length_append, List.length_cons, List.length_nil]
    rw [hres1d]
    omega
  · unfold StackBuffer.inv
    rw [hau, haucap, hresd] at *
    omega
  · unfold StackBuffer.inv
    rw [moveCurrentPos_length, moveCurrentPos_cap, hau, haucap]
    omega
  · unfold StackBuffer.inv
    rw [moveCurrentPos_length, moveCurrentPos_cap, hau, haucap]
    omega
  · unfold StackBuffer.inv StackBuffer.bulkCopy
    simp only [List.length_append, List.length_take]
    unfold StackBuffer.inv at hb
    omega

/-! C8: decimal formatting of 32-bit signed integers. -/

lemma lutChar_digit : ∀ k : Nat, k < 10 →
    lutChar false (35 + (k : Int)) = Nat.digitChar k ∧
    lutChar false (35 - (k : Int)) = Nat.digitChar k := by decide

lemma natDigitsLSDGo_reverse : ∀ (fuel n : Nat),
    (natDigitsLSDGo fuel n).reverse = natDecDigitsGo fuel n := by
  intro fuel
  induction fuel with
  | zero => intro n; rfl
  | succ f ih =>
    intro n
    unfold natDigitsLSDGo natDecDigitsGo
    split
    · simp
    · simp [ih]

/-- The digit loop at base 10 produces exactly the least-significant-first
decimal digits of `|value|`, and the final `tmp_value` is negative exactly
when `value` is. -/
lemma fi_go_ten : ∀ (fuel : Nat) (v : Int), v.natAbs < fuel →
    (fi_go 10 false fuel v).1 = natDigitsLSDGo fuel v.natAbs ∧
    ((fi_go 10 false fuel v).2 < 0 ↔ v < 0) := by
  intro fuel
  induction fuel with
  | zero => intro v hv; omega
  | succ f ih =>
    intro v hv
    obtain ⟨n, rfl | rfl⟩ : ∃ n : Nat, v = (n : Int) ∨ v = -(n : Int) :=
      ⟨v.natAbs, Int.natAbs_eq v⟩
    · have hna : ((n : Int)).natAbs = n := Int.natAbs_ofNat n
      rw [hna] at hv
      have htd : ((n : Int)).tdiv ((10 : Nat) : Int) = ((n / 10 : Nat) : Int) :=
        (Int.ofNat_tdiv n 10).symm
      by_cases hm : n < 10
      · have hz : ((n : Int)).tdiv ((10 : Nat) : Int) = 0 := by
          rw [htd, Nat.div_eq_of_lt hm]; rfl
        simp only [fi_go]
        rw [if_pos hz, hz]
        refine ⟨?_, Iff.rfl⟩
        have hidx : (35 : Int) + ((n : Int) - 0 * ((10 : Nat) : Int)) = 35 + (n : Int) := by
          push_cast; ring
        rw [hidx, (lutChar_digit n hm).1, hna]
        simp only [natDigitsLSDGo]
        rw [if_pos hm]
      · push_neg at hm
        have hq1 : 1 ≤ n / 10 := (Nat.one_le_div_iff (by norm_num)).mpr hm
        have hnz : ¬ ((n : Int)).tdiv ((10 : Nat) : Int) = 0 := by
          rw [htd]
          intro hc
          have h0 : n / 10 = 0 := Int.ofNat_eq_zero.mp hc
          omega
        simp only [fi_go]
        rw [if_neg hnz, htd]
        have hrec := ih ((n / 10 : Nat) : Int) (by
          rw [Int.natAbs_ofNat]
          omega)
        refine ⟨?_, ?_⟩
        · have hidx : (35 : Int) + ((n : Int) - ((n / 10 : Nat) : Int) * ((10 : Nat) : Int)) =
              35 + ((n % 10 : Nat) : Int) := by
            push_cast
            omega
          rw [hidx, (lutChar_digit (n % 10) (Nat.mod_lt n (by norm_num))).1]
          rw [hrec.1, Int.natAbs_ofNat, hna]
          simp only [natDigitsLSDGo]
          rw [if_neg (by omega)]
        · rw [hrec.2]
          exact iff_of_false (by omega) (by omega)
    · have hna : ((-(n : Int))).natAbs = n := by
        rw [Int.natAbs_neg, Int.natAbs_ofNat]
      rw [hna] at hv
      have htd : (-(n : Int)).tdiv ((10 : Nat) : Int) = -((n / 10 : Nat) : Int) := by
        rw [Int.neg_tdiv, ← Int.ofNat_tdiv]
      by_cases hm : n < 10
      · have hz : (-(n : Int)).tdiv ((10 : Nat) : Int) = 0 := by
          rw [htd, Nat.div_eq_of_lt hm]; rfl
        simp only [fi_go]
        rw [if_pos hz, hz]
        refine ⟨?_, Iff.rfl⟩
        have hidx : (35 : Int) + (-(n : Int) - 0 * ((10 : Nat) : Int)) = 35 - (n : Int) := by
          push_cast; ring
        rw [hidx, (lutChar_digit n hm).2, hna]
        simp only [natDigitsLSDGo]
        rw [if_pos hm]
      · push_neg at hm
        have hq1 : 1 ≤ n / 10 := (Nat.one_le_div_iff (by norm_num)).mpr hm
        have hnz : ¬ (-(n : Int)).tdiv ((10 : Nat) : Int) = 0 := by
          rw [htd]
          intro hc
          have h0 : n / 10 = 0 := Int.ofNat_eq_zero.mp (neg_eq_zero.mp hc)
          omega
        simp only [fi_go]
        rw [if_neg hnz, htd]
        have hrec := ih (-((n / 10 : Nat) : Int)) (by
          rw [Int.natAbs_neg, Int.natAbs_ofNat]
          omega)
        refine ⟨?_, ?_⟩
        · have hidx : (35 : Int) + (-(n : Int) - -((n / 10 : Nat) : Int) * ((10 : Nat) : Int)) =
              35 - ((n % 10 : Nat) : Int) := by
            push_cast
            omega
          rw [hidx, (lutChar_digit (n % 10) (Nat.mod_lt n (by norm_num))).2]
          rw [hrec.1, Int.natAbs_neg, Int.natAbs_ofNat, hna]
          simp only [natDigitsLSDGo]
          rw [if_neg (by omega)]
        · rw [hrec.2]
          exact iff_of_true (by omega) (by omega)

/-- `format_integer` at base 10 returns the decimal representation: a minus
sign followed by the digits of `|v|` for negative `v`, the digits alone
otherwise; the returned count is the number of bytes written. -/
lemma format_integer_ten (v : Int) :
    format_integer 10 false v =
      ((((if v < 0 then '-' :: natDecDigits v.natAbs else natDecDigits v.natAbs).length : Nat) :
          Int),
        if v < 0 then '-' :: natDecDigits v.natAbs else natDecDigits v.natAbs) := by
  have hfi := fi_go_ten (v.natAbs + 1) v (Nat.lt_succ_self _)
  have hrev := natDigitsLSDGo_reverse (v.natAbs + 1) v.natAbs
  have hlen : (natDigitsLSDGo (v.natAbs + 1) v.natAbs).length =
      (natDecDigitsGo (v.natAbs + 1) v.natAbs).length := by
    rw [← hrev]; simp
  by_cases hv : v < 0
  · have hp2 : (fi_go 10 false (v.natAbs + 1) v).2 < 0 := hfi.2.mpr hv
    simp only [format_integer, fi_loop, natDecDigits, hp2, hv, if_true, hfi.1,
      Prod.mk.injEq]
    constructor
    · simp only [List.length_append, List.length_cons, List.length_nil]
      omega
    · simp [hrev]
  · have hp2 : ¬ (fi_go 10 false (v.natAbs + 1) v).2 < 0 := fun hc => hv (hfi.2.mp hc)
    simp only [format_integer, fi_loop, natDecDigits, hp2, hv, if_false, hfi.1,
      Prod.mk.injEq]
    constructor
    · omega
    · simp [hrev]

/-- `n < 10 ^ k` implies at most `k` decimal digits (for `k >= 1`). -/
lemma natDecDigitsGo_length : ∀ (fuel k n : Nat), 1 ≤ k → n < 10 ^ k →
    (natDecDigitsGo fuel n).length ≤ k := by
  intro fuel
  induction fuel with
  | zero => intro k n _ _; simp [natDecDigitsGo]
  | succ f ih =>
    intro k n hk hn
    unfold natDecDigitsGo
    split
    · simpa using hk
    · rename_i hge
      push_neg at hge
      have hk2 : 2 ≤ k := by
        rcases Nat.lt_or_ge k 2 with hlt | hge2
        · have hk1 : k = 1 := by omega
          rw [hk1] at hn
          simp at hn
          omega
        · exact hge2
      have hdiv : n / 10 < 10 ^ (k - 1) := by
        have h10 : 10 ^ k = 10 ^ (k - 1) * 10 := by
          conv_lhs => rw [show k = (k - 1) + 1 by omega]
          rw [pow_succ]
        rw [Nat.div_lt_iff_lt_mul (by norm_num)]
        omega
      have hrec := ih (k - 1) (n / 10) (by omega) hdiv
      simp only [List.length_append, List.length_cons, List.length_nil]
      omega

/-- One successful pass of the grow-and-retry loop: when
`fmt_output_with_snprintf` reports `0 <= written < outputSize`, the loop
keeps exactly `written` bytes on top of the reservation and stops. -/
lemma dispatchLoop_success (prim : Prim) (ctx : context) (fmt_type : Char)
    (argbuf : List Char) (arg : fmtarg) (fuel outputSize : Nat) (buf : StackBuffer)
    (h1 : 0 ≤ (fmt_output_with_snprintf prim fmt_type argbuf outputSize arg).1)
    (h2 : (fmt_output_with_snprintf prim fmt_type argbuf outputSize arg).1 <
      (outputSize : Int)) :
    dispatchLoop prim ctx false false fmt_type argbuf arg (fuel + 1) outputSize buf =
      StackBuffer.mk
        ((buf.Reserve outputSize).data ++
          (fmt_output_with_snprintf prim fmt_type argbuf outputSize arg).2.take
            (fmt_output_with_snprintf prim fmt_type argbuf outputSize arg).1.toNat)
        (buf.Reserve outputSize).cap (buf.Reserve outputSize).own := by
  rw [dispatchLoop]
  simp only [Bool.false_eq_true, if_false]
  rw [if_pos ⟨h1, h2⟩]

/-- The full `%d` pipeline for a 32-bit signed cell, for any output of
`format_integer` short enough for the first retry-loop attempt (initial
destination guess 64 for the 256-byte scratch buffer). -/
lemma fmt_core_pct_d (prim : Prim) (ctx : context) (v : Int)
    (hlen : (format_integer 10 false v).2.length < 64) :
    fmt_core prim ctx ['%', 'd'] [fmtarg.TI32 v] 256 =
      { str := (format_integer 10 false v).2,
        len := (format_integer 10 false v).2.length,
        usedStatic := true, argsConsumed := 1 } := by
  have hout : fmt_output_with_snprintf prim 'd' ['%'] 64 (fmtarg.TI32 v) =
      format_integer 10 false v := rfl
  have hfst : (format_integer 10 false v).1 = ((format_integer 10 false v).2.length : Int) := by
    rw [format_integer_ten]
  have h1 : 0 ≤ (fmt_output_with_snprintf prim 'd' ['%'] 64 (fmtarg.TI32 v)).1 := by
    rw [hout, hfst]; exact Int.ofNat_nonneg _
  have h2 : (fmt_output_with_snprintf prim 'd' ['%'] 64 (fmtarg.TI32 v)).1 < ((64 : Nat) : Int) := by
    rw [hout, hfst]; exact_mod_cast hlen
  have hdisp := dispatchLoop_success prim ctx 'd' ['%'] (fmtarg.TI32 v) 63 64
    (mkStackBuffer 256) h1 h2
  have hres0 : (mkStackBuffer 256).Reserve 64 = mkStackBuffer 256 := rfl
  rw [hres0, hout, hfst] at hdisp
  simp only [mkStackBuffer, List.nil_append, Int.toNat_natCast, List.take_length] at hdisp
  have hscan : scan prim ctx [fmtarg.TI32 v] (initial_sprintf_guessed_size 256)
      ['%', 'd'] none 0 (mkStackBuffer 256) =
      (dispatchLoop prim ctx false false 'd' ['%'] (fmtarg.TI32 v) (63 + 1) 64
        (mkStackBuffer 256), 1) := rfl
  simp only [mkStackBuffer] at hscan
  rw [hdisp] at hscan
  have hadd : StackBuffer.Add ⟨(format_integer 10 false v).2, 256, false⟩ nulChar =
      ⟨(format_integer 10 false v).2 ++ [nulChar], 256, false⟩ := by
    unfold StackBuffer.Add StackBuffer.Reserve
    rw [if_neg (by omega : ¬ ((256 : Nat) < (format_integer 10 false v).2.length + 1))]
  unfold fmt_core
  simp only [mkStackBuffer]
  rw [hscan]
  simp only [hadd]
  simp [List.dropLast_concat]

/-- C8: for every 32-bit signed integer cell value, formatting with `%d`
produces the decimal representation: a leading minus sign followed by the
digits of `|v|` for negative `v` (including the most negative value), and the
digits alone, with no sign, for non-negative `v`. -/
theorem C8_decimal_int32 (prim : Prim) (ctx : context) (v : Int)
    (hlo : -(2 ^ 31) ≤ v) (hhi : v < 2 ^ 31) :
    (fmt_core prim ctx ['%', 'd'] [fmtarg.TI32 v] 256).str =
      (if v < 0 then '-' :: natDecDigits v.natAbs else natDecDigits v.natAbs) := by
  have habs : v.natAbs < 10 ^ 10 := by
    have h1 : v.natAbs ≤ 2 ^ 31 := by omega
    have h2 : (2 : Nat) ^ 31 < 10 ^ 10 := by norm_num
    omega
  have hd : (natDecDigits v.natAbs).length ≤ 10 :=
    natDecDigitsGo_length (v.natAbs + 1) 10 v.natAbs (by norm_num) habs
  have hsnd : (format_integer 10 false v).2 =
      (if v < 0 then '-' :: natDecDigits v.natAbs else natDecDigits v.natAbs) := by
    rw [format_integer_ten]
  have hlen : (format_integer 10 false v).2.length < 64 := by
    rw [hsnd]
    by_cases hv : v < 0
    · rw [if_pos hv]; simp only [List.length_cons]; omega
    · rw [if_neg hv]; omega
  rw [fmt_core_pct_d prim ctx v hlen]
  exact hsnd

/-- C8 witness (at the most negative 32-bit value). -/
theorem C8_decimal_int32_witness :
    (-(2 ^ 31) ≤ (-2147483648 : Int) ∧ (-2147483648 : Int) < 2 ^ 31) ∧
    (fmt_core nullPrim noHooks ['%', 'd'] [fmtarg.TI32 (-2147483648)] 256).str =
      (if (-2147483648 : Int) < 0 then '-' :: natDecDigits (Int.natAbs (-2147483648))
       else natDecDigits (Int.natAbs (-2147483648))) :=
  ⟨⟨by decide, by decide⟩,
    C8_decimal_int32 nullPrim noHooks (-2147483648) (by decide) (by decide)⟩

/-- C9 witness. -/
theorem C9_invariant_preserved_witness :
    (StackBuffer.inv ⟨['a'], 2, false⟩ ∧ 1 ≤ 2) ∧ (mkStackBuffer 3).inv :=
  ⟨⟨by unfold StackBuffer.inv; decide, by decide⟩,
    (C9_invariant_preserved 3 2 'z' ⟨['a'], 2, false⟩ 1 ['x']
      (by unfold StackBuffer.inv; decide) (by decide)).1⟩

end tsf
